import Mathlib

/-!
Shallow embedding of the room-level timeline reconciliation engine of
weechat-matrix-rs (file src/room/mod.rs), together with proofs of the
frozen claims about it.

Modeling conventions:
* All identifiers (room ids, user ids, event ids, uuids, tokens) are strings.
* The weechat display buffer is the list of its lines, oldest first; a line
  carries the five fields that the code itself reads and writes
  (date, date_printed, tags, prefix, message).  The Rust field `prefix` is
  called `pfx` here.
* External collaborators (the Render trait impls from render.rs, weechat
  color handling, the roster lookup, the configuration, Uuid parsing, the
  wall clock) are pure-function fields of an `Externals` record that is
  passed to every operation; the operations themselves are translated from
  the source.
* The transport layer is modeled by passing the would-be response of the
  single network call a function makes (an `Except` value) as an argument.
* A Rust panic (an `expect`/`unwrap` failure or an arithmetic underflow) is
  modeled by returning `none` from an `Option`-valued function.
-/

abbrev EventId := String
abbrev UserId := String
abbrev Uuid := String

/-- Embeds `enum RedactionStyle` from the configuration. -/
inductive RedactionStyle where
  | delete
  | notice
  | strikeThrough
  deriving DecidableEq, Repr

/-- Embeds `enum PrevBatch` (room/mod.rs): the pagination cursor. -/
inductive PrevBatch where
  | Forward (token : String)
  | Backwards (token : String)
  deriving DecidableEq, Repr

/-- Embeds the message type of `MessageEventContent`: `MessageType::Text`
carries its body; all other variants are collapsed into `otherType`
(their differences are only visible to the external renderer). -/
inductive Msgtype where
  | text (body : String)
  | otherType
  deriving DecidableEq, Repr

/-- Embeds `MessageEventContent` together with its `relates_to` field.
The Rust type is a message type plus an `Option<Relation>`;
`Relation::Replacement` carries a target event id and a nested
`new_content`.  The option-of-relation is flattened into three
constructors to keep the recursion direct:
`plain c` is `relates_to == None`,
`withReplacement c e n` is `relates_to == Some(Replacement { event_id: e, new_content: n })`,
`withOtherRelation c` is `relates_to == Some(_)` for any non-replacement
relation kind. -/
inductive MessageContent where
  | plain (msgtype : Msgtype)
  | withReplacement (msgtype : Msgtype) (eventId : EventId) (newContent : MessageContent)
  | withOtherRelation (msgtype : Msgtype)
  deriving DecidableEq, Repr

/-- Message type projection, `content.msgtype` in the source. -/
def MessageContent.msgtype : MessageContent → Msgtype
  | .plain c => c
  | .withReplacement c _ _ => c
  | .withOtherRelation c => c

/-- Embeds `Edit::is_edit` for a message content (utils.rs):
true exactly when `relates_to` is `Some(Relation::Replacement(_))`. -/
def MessageContent.is_edit : MessageContent → Bool
  | .withReplacement _ _ _ => true
  | _ => false

/-- Embeds `Edit::get_edit` for a message content (utils.rs). -/
def MessageContent.get_edit : MessageContent → Option (EventId × MessageContent)
  | .withReplacement _ e n => some (e, n)
  | _ => none

/-- Embeds a rendered line of `RenderedContent` (render.rs, external):
a message string and a list of tags. -/
structure RenderedLine where
  message : String
  tags : List String
  deriving DecidableEq, Repr

/-- Embeds `RenderedContent` (render.rs, external). -/
structure RenderedContent where
  lines : List RenderedLine
  deriving DecidableEq, Repr

/-- Embeds `RenderedEvent` (render.rs, external): a prefix (`pfx` here),
a message timestamp and the rendered content lines. -/
structure RenderedEvent where
  pfx : String
  messageTimestamp : Int
  content : RenderedContent
  deriving DecidableEq, Repr

/-- Embeds a weechat buffer line with the five fields the code reads and
writes (`BufferLine` accessors date, date_printed, tags, prefix, message).
The Rust `prefix` field is called `pfx`. -/
structure BufferLine where
  date : Int
  datePrinted : Int
  tags : List String
  pfx : String
  message : String
  deriving DecidableEq, Repr

/-- Embeds the kind of an `AnySyncMessageEvent` / `AnyMessageEvent`:
a room message with its content, a room redaction (carrying the redacted
event id and the optional reason), or any of the remaining message-event
variants (encrypted, sticker, call, verification, ...) whose rendering
outcome is left to the external renderer. -/
inductive MessageKind where
  | roomMessage (content : MessageContent)
  | roomRedaction (redacts : EventId) (reason : Option String)
  | otherMessage
  deriving DecidableEq, Repr

/-- Embeds an `AnySyncMessageEvent` (and, for historical pagination
responses, an `AnyMessageEvent`): sender, event id, origin server
timestamp, the `unsigned.transaction_id` when present, and the kind. -/
structure MessageEvent where
  sender : UserId
  eventId : EventId
  originServerTs : Int
  txnId : Option String
  kind : MessageKind
  deriving DecidableEq, Repr

/-- Embeds `Edit::is_edit` on a whole message event (utils.rs): only
`RoomMessage` events with a replacement relation are edits. -/
def MessageEvent.is_edit (ev : MessageEvent) : Bool :=
  match ev.kind with
  | .roomMessage c => c.is_edit
  | _ => false

/-- Embeds `AnyRoomEvent` (the events of a historical pagination
response). -/
inductive AnyRoomEvent where
  | message (ev : MessageEvent)
  | redactedMessage
  | redactedState
  | state
  deriving DecidableEq, Repr

/-- Embeds an `AnyRedactedSyncMessageEvent`: whether it is the
`RoomMessage` variant, and the sender of the `unsigned.redacted_because`
redaction event when that field is present. -/
structure RedactedMessageEvent where
  isRoomMessage : Bool
  redacterSender : Option UserId
  deriving DecidableEq, Repr

/-- Embeds the pure external collaborators as a record of functions:
weechat color handling, grapheme segmentation, the roster nick lookup,
the Render trait impls of render.rs (not part of the reconciliation
core), tag decoration, Uuid parsing, the wall clock, and the relevant
configuration switches.  None of these is translated from room/mod.rs;
room/mod.rs only calls them. -/
structure Externals where
  color : String → String
  removeColor : String → String
  graphemes : String → List String
  memberNick : UserId → String
  renderText : EventId → Int → UserId → String → RenderedEvent
  renderOther : EventId → Int → UserId → Option RenderedEvent
  renderEcho : String → Uuid → RenderedEvent
  renderRedacted : RedactedMessageEvent → RenderedEvent
  addSelfTags : RenderedEvent → RenderedEvent
  addMsgTags : RenderedEvent → RenderedEvent
  uuidParse : String → Option Uuid
  now : Int
  localEcho : Bool
  redactionStyle : RedactionStyle
  lastPrevBatch : Option String

/-- Embeds the `PLUGIN_NAME` constant of the crate root ("matrix"); the
tag formats of utils.rs ("matrix_id_", "matrix_sender_") fix its value. -/
def PLUGIN_NAME : String := "matrix"

/-- Embeds `ToTag for EventId` (utils.rs). -/
def eventIdToTag (e : EventId) : String := "matrix_id_" ++ e

/-- Embeds `ToTag for UserId` (utils.rs). -/
def userIdToTag (u : UserId) : String := "matrix_sender_" ++ u

/-- Embeds the `MessageQueue` map (`HashMap<Uuid, (bool, MessageEventContent)>`)
as an association list with map semantics: lookup and removal are by key,
insertion replaces any previous entry for the key. -/
def MessageQueue : Type := List (Uuid × Bool × MessageContent)

/-- Embeds `HashMap::remove`: the removed value (if any) and the remaining
queue. -/
def mqRemove (q : MessageQueue) (u : Uuid) :
    Option (Bool × MessageContent) × MessageQueue :=
  match q.find? (fun e => decide (e.1 = u)) with
  | some e => (some e.2, q.filter (fun e => !decide (e.1 = u)))
  | none => (none, q)

/-- Embeds `MessageQueue::add` / `add_with_echo` (the boolean is the
`has_echo` flag). -/
def mqInsert (q : MessageQueue) (u : Uuid) (echo : Bool)
    (content : MessageContent) : MessageQueue :=
  (u, echo, content) :: q.filter (fun e => !decide (e.1 = u))

/-- Membership test for the queue (`contains_key`). -/
def mqContains (q : MessageQueue) (u : Uuid) : Bool :=
  (q.find? (fun e => decide (e.1 = u))).isSome

/-- Embeds the mutable state of a `MatrixRoom` that the claims observe:
the own user id (immutable identity), the buffer lines, the outgoing
message queue, the pagination cursor `prev_batch`, and the observable
locked state of the `messages_in_flight` IntMutex. -/
structure RoomState where
  ownUserId : UserId
  buffer : List BufferLine
  queue : MessageQueue
  prevBatch : Option PrevBatch
  inFlight : Bool

/-- Embeds `Buffer::print_date_tags`: append a line at the bottom of the
buffer with the given date, tags and message.  The printed-date weechat
assigns is not observed by any code path modeled here, so it is set to
the same date. -/
def print_date_tags (buf : List BufferLine) (date : Int) (tags : List String)
    (message : String) : List BufferLine :=
  buf ++ [{ date := date, datePrinted := date, tags := tags, pfx := "",
            message := message }]

/-- Embeds `MatrixRoom::print_rendered_event`: print every rendered line,
prepending the rendered prefix to the line message. -/
def print_rendered_event (buf : List BufferLine) (r : RenderedEvent) :
    List BufferLine :=
  r.content.lines.foldl
    (fun b line =>
      print_date_tags b r.messageTimestamp line.tags (r.pfx ++ line.message))
    buf

/-- Comparison used by `sort_messages`: `lines.sort_by_key(|l| l.date)`. -/
def lineDateLe (a b : BufferLine) : Bool := decide (a.date ≤ b.date)

/-- Embeds `MatrixRoom::sort_messages`: copy all lines, stable-sort the
copies by date, and write every field of every line back in sorted order.
Since all five fields of each line are rewritten, the net effect on the
modeled buffer is replacing the list with its stable sort by date. -/
def sort_messages (buf : List BufferLine) : List BufferLine :=
  buf.mergeSort lineDateLe

/-- Embeds `MatrixRoom::render_message_content`: dispatch on the content
kind and call the external Render impls.  Text messages always render;
the non-text message types are collapsed into `otherType` and their
per-variant outcome (rendered or `None`) is the external `renderOther`;
redaction content and the content of non-message event kinds fall into
the catch-all `None` arms of the source match. -/
def render_message_content (ext : Externals) (eventId : EventId)
    (sendTime : Int) (sender : UserId) (kind : MessageKind) :
    Option RenderedEvent :=
  match kind with
  | .roomMessage c =>
    match c.msgtype with
    | .text body => some (ext.renderText eventId sendTime sender body)
    | .otherType => ext.renderOther eventId sendTime sender
  | .roomRedaction _ _ => none
  | .otherMessage => ext.renderOther eventId sendTime sender

/-- Embeds `MatrixRoom::handle_room_event` (events from a historical
pagination response): only non-edit message events are rendered and
printed; redacted and state events are explicit no-ops.  The roster
lookup of the sender is modeled as total (a roster miss is a
fatal-to-the-event condition outside this model). -/
def handle_room_event (ext : Externals) (buf : List BufferLine)
    (ev : AnyRoomEvent) : List BufferLine :=
  match ev with
  | .message e =>
    if e.is_edit then buf
    else
      match render_message_content ext e.eventId e.originServerTs e.sender
          e.kind with
      | some rendered => print_rendered_event buf rendered
      | none => buf
  | .redactedMessage => buf
  | .redactedState => buf
  | .state => buf

/-- Embeds a `room_messages` response (`Messages`): the raw event chunk
(a `none` entry is an event whose deserialization failed and is skipped)
and the optional `end` continuation token. -/
structure Page where
  chunk : List (Option AnyRoomEvent)
  endTok : Option String

/-- Processing of the events of one pagination page, in order:
`for event in r.chunk.iter().filter_map(|e| e.deserialize().ok())`. -/
def handleChunk (ext : Externals) (buf : List BufferLine)
    (chunk : List (Option AnyRoomEvent)) : List BufferLine :=
  (chunk.filterMap id).foldl (handle_room_event ext) buf

/-- Embeds `MatrixRoom::get_messages`.  The arguments `conn` (is a
connection present) and `resp` (the result the single `room_messages`
transport call would return) stand for the external collaborators; the
result is the new room state together with the number of transport calls
made.  The control flow follows the source: return if there is no
cursor; return if the `messages_in_flight` lock is held; otherwise hold
the lock for the duration of the call, make the transport call if
connected, on success process the chunk and then resolve the next cursor
(a `Forward` cursor flips to `Backwards` with the same token and the
buffer is re-sorted; otherwise an empty chunk clears the cursor; otherwise
the cursor becomes `Backwards` of the response's end token and the buffer
is re-sorted), and finally release the lock. -/
def get_messages (ext : Externals) (st : RoomState) (conn : Bool)
    (resp : Except Unit Page) : RoomState × Nat :=
  match st.prevBatch with
  | none => (st, 0)
  | some _ =>
    if st.inFlight then (st, 0)
    else
      let st1 := { st with inFlight := true }
      let r2 :=
        if conn then
          match resp with
          | Except.ok r =>
            let stE := { st1 with buffer := handleChunk ext st1.buffer r.chunk }
            let stC :=
              match stE.prevBatch with
              | some (PrevBatch.Forward t) =>
                { stE with prevBatch := some (PrevBatch.Backwards t),
                           buffer := sort_messages stE.buffer }
              | _ =>
                if r.chunk.isEmpty then { stE with prevBatch := none }
                else { stE with prevBatch := r.endTok.map PrevBatch.Backwards,
                                buffer := sort_messages stE.buffer }
            (stC, 1)
          | Except.error _ => (st1, 1)
        else (st1, 0)
      ({ r2.1 with inFlight := false }, r2.2)

/-- Predicate of `redact_event`: a line carrying the redacted event's id
tag (format `"{PLUGIN_NAME}_id_{event_id}"`) that does not already carry
the `matrix_redacted` tag. -/
def redactPredicate (redacts : EventId) (l : BufferLine) : Bool :=
  l.tags.contains (PLUGIN_NAME ++ "_id_" ++ redacts) &&
    !(l.tags.contains "matrix_redacted")

/-- Embeds the `strike_through` closure of `redact_event`: strip the
colors, then render every grapheme followed by a combining long stroke
overlay. -/
def strike_through (ext : Externals) (s : String) : String :=
  String.join ((ext.graphemes (ext.removeColor s)).map (fun g => g ++ "̶"))

/-- Embeds the `redaction_message` built by `redact_event`. -/
def redactionNotice (ext : Externals) (sender : UserId)
    (reason : Option String) : String :=
  let reasonStr :=
    match reason with
    | some r => ", reason: " ++ r
    | none => ""
  ext.color "chat_delimiters" ++ "<" ++ ext.color "logger.color.backlog_line" ++
    "Message redacted by: " ++ ext.memberNick sender ++ reasonStr ++
    ext.color "chat_delimiters" ++ ">" ++ ext.color "reset"

/-- Embeds the `redact_first_line` closure of `redact_event`. -/
def redactFirstLine (ext : Externals) (notice message : String) : String :=
  match ext.redactionStyle with
  | .delete => notice
  | .notice => message ++ " " ++ notice
  | .strikeThrough => strike_through ext message ++ " " ++ notice

/-- Embeds the `redact_string` closure of `redact_event` (applied to the
continuation lines found above the first match). -/
def redactString (ext : Externals) (notice message : String) : String :=
  match ext.redactionStyle with
  | .delete => notice
  | .notice => message ++ " " ++ notice
  | .strikeThrough => strike_through ext message

/-- Embeds the `modify_line` helper of `redact_event`: rewrite the
message with the redaction function and push the `matrix_redacted` tag. -/
def modifyRedactedLine (f : String → String) (l : BufferLine) : BufferLine :=
  { l with message := f l.message, tags := l.tags ++ ["matrix_redacted"] }

/-- Embeds the `while let Some(line) = lines.next_back().filter(predicate)`
loop of `redact_event`, on the list of lines above the first match in
bottom-to-top order: modify consecutive matching lines and stop at the
first non-matching one. -/
def redactCont (p : BufferLine → Bool) (g : BufferLine → BufferLine) :
    List BufferLine → List BufferLine
  | [] => []
  | l :: ls => if p l then g l :: redactCont p g ls else l :: ls

/-- Embeds `MatrixRoom::redact_event`.  The buffer is scanned from the
bottom (`rfind` on the line iterator, modeled by traversing the reversed
list): the most recent line matching `redactPredicate` gets the
first-line redaction treatment, the consecutive matching lines directly
above it get the continuation treatment, and the scan stops at the first
non-matching line above them.  If no line matches, the buffer is
unchanged. -/
def redact_event (ext : Externals) (sender : UserId) (redacts : EventId)
    (reason : Option String) (buf : List BufferLine) : List BufferLine :=
  let p := redactPredicate redacts
  let notice := redactionNotice ext sender reason
  let rev := buf.reverse
  let skip := rev.takeWhile (fun l => !p l)
  match rev.dropWhile (fun l => !p l) with
  | [] => buf
  | l :: ls =>
    (skip ++ modifyRedactedLine (redactFirstLine ext notice) l ::
      redactCont p (modifyRedactedLine (redactString ext notice)) ls).reverse

/-- Line update applied by the zip loop of `replace_event_helper`: the
`LineData` it builds sets the prefix (trimmed), message and tags and
leaves date and date_printed unset (hence unchanged). -/
def updOne (pfx : String) (n : RenderedLine) (l : BufferLine) : BufferLine :=
  { l with pfx := pfx.trimRight, message := n.message, tags := n.tags }

/-- Blanking applied to surplus matched lines (`line.set_message("")`). -/
def blankLine (l : BufferLine) : BufferLine := { l with message := "" }

/-- Embeds the in-place updates of `replace_event_helper` on the whole
buffer: walking the buffer top to bottom, the j-th line matched by `isM`
is overwritten with the j-th rendered line while rendered lines remain
(the `zip` loop of the source), and blanked once they are exhausted (the
`Ordering::Greater` arm); non-matching lines are untouched.  The source
performs the two passes separately on the collected line references;
they touch disjoint lines, so one walk is equivalent. -/
def updateMatches (isM : BufferLine → Bool) (pfx : String) :
    List RenderedLine → List BufferLine → List BufferLine
  | _, [] => []
  | news, l :: ls =>
    if isM l then
      match news with
      | n :: ns => updOne pfx n l :: updateMatches isM pfx ns ls
      | [] => blankLine l :: updateMatches isM pfx [] ls
    else l :: updateMatches isM pfx news ls

/-- Embeds `MatrixRoom::replace_event_helper`.  `isM` is the predicate
with which `replace_edit` collected the matched lines (so the `lines`
argument of the source is `buf.filter isM`).  Matched lines are
overwritten line-for-line; if the replacement renders to more lines than
were matched, the surplus rendered lines are printed at the date of the
first matched line and the buffer is re-sorted; if to fewer, the surplus
matched lines are blanked. -/
def replace_event_helper (isM : BufferLine → Bool) (ev : RenderedEvent)
    (buf : List BufferLine) : List BufferLine :=
  let matched := buf.filter isM
  let date := (matched.head?.map (fun l => l.date)).getD 0
  let buf1 := updateMatches isM ev.pfx ev.content.lines buf
  if matched.length < ev.content.lines.length then
    sort_messages
      ((ev.content.lines.drop matched.length).foldl
        (fun b n => print_date_tags b date n.tags (ev.pfx ++ n.message)) buf1)
  else buf1

/-- Embeds `MatrixRoom::replace_edit`: collect the lines tagged with the
target event id; if the first of them also carries the issuing sender's
tag, apply `replace_event_helper`, otherwise leave the buffer unchanged
(also when no line matches). -/
def replace_edit (eventId : EventId) (sender : UserId) (ev : RenderedEvent)
    (buf : List BufferLine) : List BufferLine :=
  let senderTag := userIdToTag sender
  let eventIdTag := eventIdToTag eventId
  let isM := fun (l : BufferLine) => l.tags.contains eventIdTag
  let lines := buf.filter isM
  if ((lines.head?).map (fun l => l.tags.contains senderTag)).getD false then
    replace_event_helper isM ev buf
  else buf

/-- Tag of a local echo line (`format!("matrix_echo_{}", uuid)`). -/
def echoTag (u : Uuid) : String := "matrix_echo_" ++ u

/-- Line update of `replace_local_echo` (`line.set_message(...)`). -/
def setLineMessage (m : String) (l : BufferLine) : BufferLine :=
  { l with message := m }

/-- Embeds the `while let Some(line) = &current_line` loop of
`replace_local_echo`, on a bottom-to-top list of lines whose head is the
bottom-most matching line.  `msgs` holds the still unconsumed rendered
lines in reverse order (the source keeps an index `line_num` that starts
at the rendered line count and is decremented before each use; the
decrement of zero is a usize underflow, modeled by `none`).  The loop
rewrites consecutive matching lines and stops at the first non-matching
one. -/
def echoLoop (p : BufferLine → Bool) :
    List RenderedLine → List BufferLine → Option (List BufferLine)
  | _, [] => some []
  | msgs, l :: ls =>
    if p l then
      match msgs with
      | [] => none
      | m :: ms =>
        (echoLoop p ms ls).map (fun r => setLineMessage m.message l :: r)
    else some (l :: ls)

/-- Predicate of `replace_local_echo` (`line_contains_uuid`): a line
tagged with the transaction id's echo tag. -/
def echoPred (u : Uuid) (l : BufferLine) : Bool := l.tags.contains (echoTag u)

/-- Embeds `MatrixRoom::replace_local_echo`: find the bottom-most line
tagged with the transaction id's echo tag (`rfind` over the line
iterator, modeled on the reversed list) and rewrite the consecutive
tagged lines bottom-to-top with the rendered lines taken last-to-first;
`none` models the usize underflow panic when the rendered lines are
exhausted before the tagged lines. -/
def replace_local_echo (u : Uuid) (buf : List BufferLine)
    (rendered : RenderedEvent) : Option (List BufferLine) :=
  let p := echoPred u
  let rev := buf.reverse
  let skip := rev.takeWhile (fun l => !p l)
  match rev.dropWhile (fun l => !p l) with
  | [] => some buf
  | l :: ls =>
    (echoLoop p rendered.content.lines.reverse (l :: ls)).map
      (fun r => (skip ++ r).reverse)

/-- Embeds `MatrixRoom::render_sync_message`: render the content and
decorate the result with self tags when the sender is the own user, with
ordinary message tags otherwise.  The roster lookup of the sender is
modeled as total. -/
def render_sync_message (ext : Externals) (ownUserId : UserId)
    (ev : MessageEvent) : Option RenderedEvent :=
  (render_message_content ext ev.eventId ev.originServerTs ev.sender
      ev.kind).map
    (fun r => if ev.sender = ownUserId then ext.addSelfTags r
              else ext.addMsgTags r)

/-- Embeds `MatrixRoom::queue_outgoing_message`: when local echo is
enabled and the content is plain text, print a local echo line rendered
for the transaction id and insert the content with `has_echo = true`;
otherwise insert it with `has_echo = false` and print nothing. -/
def queue_outgoing_message (ext : Externals) (st : RoomState) (u : Uuid)
    (content : MessageContent) : RoomState :=
  if ext.localEcho then
    match content.msgtype with
    | .text body =>
      let localEchoEvent := ext.addSelfTags (ext.renderEcho body u)
      { st with buffer := print_rendered_event st.buffer localEchoEvent,
                queue := mqInsert st.queue u true content }
    | .otherType => { st with queue := mqInsert st.queue u false content }
  else { st with queue := mqInsert st.queue u false content }

/-- Embeds `MatrixRoom::handle_outgoing_message` (the confirmation of an
own send): remove the queue entry for the transaction id; if there is
none, do nothing.  Otherwise reconstruct the event with the stored
content, the server event id, the own user id and the current time,
render it (the `expect` for unrenderable content is the `none` result),
and either rewrite the local echo lines in place or print the rendered
event as new lines. -/
def handle_outgoing_message (ext : Externals) (st : RoomState) (u : Uuid)
    (eventId : EventId) : Option RoomState :=
  match mqRemove st.queue u with
  | (some ec, q1) =>
    let event : MessageEvent :=
      { sender := st.ownUserId, eventId := eventId,
        originServerTs := ext.now, txnId := none,
        kind := MessageKind.roomMessage ec.2 }
    match render_sync_message ext st.ownUserId event with
    | none => none
    | some rendered =>
      if ec.1 then
        match replace_local_echo u st.buffer rendered with
        | some buf => some { st with queue := q1, buffer := buf }
        | none => none
      else
        some { st with queue := q1,
                       buffer := print_rendered_event st.buffer rendered }
  | (none, _) => some st

/-- Embeds `MatrixRoom::send_message`.  `u` is the freshly generated
transaction id, `conn` whether a connection is present, and `resp` the
result the transport's `send_message` call would return.  With a
connection: queue the message (and possibly its local echo), then on
transport success confirm via `handle_outgoing_message`, on transport
failure remove the queue entry without confirming.  Without a
connection, print an error line. -/
def send_message (ext : Externals) (st : RoomState) (u : Uuid) (conn : Bool)
    (resp : Except Unit EventId) (content : MessageContent) :
    Option RoomState :=
  if conn then
    let st1 := queue_outgoing_message ext st u content
    match resp with
    | Except.ok eid => handle_outgoing_message ext st1 u eid
    | Except.error _ => some { st1 with queue := (mqRemove st1.queue u).2 }
  else
    some { st with buffer :=
      print_date_tags st.buffer ext.now [] "Error not connected" }

/-- Embeds `MatrixRoom::handle_edits`: for an event carrying a
replacement relation, render the replacement content against the target
event id and apply `replace_edit` with the edit's sender. -/
def handle_edits (ext : Externals) (st : RoomState) (ev : MessageEvent) :
    RoomState :=
  match ev.kind with
  | .roomMessage c =>
    match c.get_edit with
    | some en =>
      match
        (render_message_content ext en.1 ev.originServerTs ev.sender
            (MessageKind.roomMessage en.2)).map
          (fun r => if ev.sender = st.ownUserId then ext.addSelfTags r
                    else ext.addMsgTags r)
      with
      | some rendered =>
        { st with buffer := replace_edit en.1 ev.sender rendered st.buffer }
      | none => st
    | none => st
  | _ => st

/-- Routing done by `handle_room_message` after the transaction id check
fell through: redactions, then edits, then plain rendering. -/
def handle_room_message_rest (ext : Externals) (st : RoomState)
    (ev : MessageEvent) : Option RoomState :=
  match ev.kind with
  | .roomRedaction redacts reason =>
    some { st with buffer := redact_event ext ev.sender redacts reason st.buffer }
  | _ =>
    if ev.is_edit then some (handle_edits ext st ev)
    else
      match render_sync_message ext st.ownUserId ev with
      | some rendered =>
        some { st with buffer := print_rendered_event st.buffer rendered }
      | none => some st

/-- Embeds `MatrixRoom::handle_room_message` (live sync message events):
if the event carries a transaction id that parses as a Uuid, treat it as
the confirmation of an own send and return immediately; otherwise route
to redaction, edit, or rendering. -/
def handle_room_message (ext : Externals) (st : RoomState)
    (ev : MessageEvent) : Option RoomState :=
  match ev.txnId with
  | some s =>
    match ext.uuidParse s with
    | some u => handle_outgoing_message ext st u ev.eventId
    | none => handle_room_message_rest ext st ev
  | none => handle_room_message_rest ext st ev

/-- Embeds `MatrixRoom::handle_redacted_events`: a redacted room message
is rendered (by the external redacted-event renderer, with the redacter
taken from `unsigned.redacted_because`, whose absence is an unwrap
panic, modeled by `none`) and printed; other redacted events are
ignored. -/
def handle_redacted_events (ext : Externals) (st : RoomState)
    (ev : RedactedMessageEvent) : Option RoomState :=
  if ev.isRoomMessage then
    match ev.redacterSender with
    | none => none
    | some _ =>
      some { st with buffer :=
        print_rendered_event st.buffer (ext.renderRedacted ev) }
  else some st

/-- Embeds `MatrixRoom::set_prev_batch`: when the buffer holds no lines,
reseed the pagination cursor from the room's stored `last_prev_batch`. -/
def set_prev_batch (ext : Externals) (st : RoomState) : RoomState :=
  if st.buffer.length = 0 then
    { st with prevBatch := ext.lastPrevBatch.map PrevBatch.Backwards }
  else st

/-- Embeds `AnySyncRoomEvent` (the events of a live sync response). -/
inductive AnySyncRoomEvent where
  | message (ev : MessageEvent)
  | redactedMessage (ev : RedactedMessageEvent)
  | redactedState
  | state
  deriving Repr

/-- Embeds `MatrixRoom::handle_sync_room_event`: reseed the cursor if the
buffer is empty, then dispatch on the event kind.  State events only
update buffer attributes (name, topic, alias) that live on the external
display surface, so they leave the modeled state unchanged; redacted
state events are an explicit no-op. -/
def handle_sync_room_event (ext : Externals) (st : RoomState)
    (ev : AnySyncRoomEvent) : Option RoomState :=
  let st1 := set_prev_batch ext st
  match ev with
  | .message e => handle_room_message ext st1 e
  | .redactedMessage e => handle_redacted_events ext st1 e
  | .redactedState => some st1
  | .state => some st1

/-! Helper notions used to state the claims (they are not part of the
embedding of the source; the theorems relate them to it). -/

/-- Per-index description of the in-place updates of
`replace_event_helper`: the line at index `i` is unchanged when it does
not match; a matching line is overwritten with the rendered line whose
index is the number of matches strictly before `i`, or blanked when the
rendered lines are exhausted. -/
def editSpecLine (isM : BufferLine → Bool) (pfx : String)
    (news : List RenderedLine) (buf : List BufferLine) (i : Nat) :
    Option BufferLine :=
  (buf[i]?).map (fun l =>
    if isM l then
      match news[((buf.take i).filter isM).length]? with
      | some n => updOne pfx n l
      | none => blankLine l
    else l)

/-- Contiguity of the lines matched by `p`, seen from the bottom of the
buffer: above the bottom-most run of consecutive matching lines no
further line matches. -/
def gapFree (p : BufferLine → Bool) (buf : List BufferLine) : Bool :=
  ((buf.reverse.dropWhile (fun l => !p l)).dropWhile p).all (fun l => !p l)

/-! Concrete fixture used by the witnesses and the counterexample: an
`Externals` record whose function fields are simple computable closures,
and a few concrete lines, events and states. -/

/-- Concrete external collaborators for evaluation. -/
def extW : Externals :=
  { color := fun _ => "", removeColor := id, graphemes := fun s => [s],
    memberNick := fun u => u,
    renderText := fun e t s b =>
      { pfx := "p:", messageTimestamp := t,
        content := { lines := [{ message := b,
                                 tags := [eventIdToTag e, userIdToTag s] }] } },
    renderOther := fun _ _ _ => none,
    renderEcho := fun b u =>
      { pfx := "p:", messageTimestamp := 0,
        content := { lines := [{ message := b, tags := [echoTag u] }] } },
    renderRedacted := fun _ =>
      { pfx := "", messageTimestamp := 0, content := { lines := [] } },
    addSelfTags := id, addMsgTags := id,
    uuidParse := fun s => some s,
    now := 100, localEcho := true,
    redactionStyle := RedactionStyle.notice,
    lastPrevBatch := none }

/-- Concrete line tagged with event id E (oldest). -/
def cLineA : BufferLine :=
  { date := 1, datePrinted := 1, tags := ["matrix_id_E"], pfx := "",
    message := "a" }

/-- Concrete untagged line sitting between the two E-tagged lines. -/
def cLineB : BufferLine :=
  { date := 2, datePrinted := 2, tags := [], pfx := "", message := "b" }

/-- Concrete line tagged with event id E (newest). -/
def cLineC : BufferLine :=
  { date := 3, datePrinted := 3, tags := ["matrix_id_E"], pfx := "",
    message := "c" }

/-- Concrete room state with an empty queue and no cursor. -/
def stW : RoomState :=
  { ownUserId := "me", buffer := [], queue := [], prevBatch := none,
    inFlight := false }

/-- Concrete room state holding a Forward cursor. -/
def stWF : RoomState :=
  { stW with buffer := [cLineB, cLineA],
             prevBatch := some (PrevBatch.Forward "tok") }

/-- Concrete room state holding a Backwards cursor. -/
def stWB : RoomState := { stWF with prevBatch := some (PrevBatch.Backwards "t1") }

/-- Concrete queue entry content. -/
def cContent : MessageContent := MessageContent.plain (Msgtype.text "hi")

/-- Concrete room state whose queue holds transaction u1 without echo. -/
def stWQ : RoomState := { stW with queue := [("u1", false, cContent)] }

/-- Concrete live event carrying transaction id u1 (its kind is a
redaction, exercising the short-circuit regardless of content). -/
def cEvTxn : MessageEvent :=
  { sender := "x", eventId := "E1", originServerTs := 5, txnId := some "u1",
    kind := MessageKind.roomRedaction "E" none }

/-- Concrete rendered event with a single line. -/
def cRendered : RenderedEvent :=
  { pfx := "p:", messageTimestamp := 7,
    content := { lines := [{ message := "new", tags := ["matrix_id_E2"] }] } }

/-! Theorems.  General helper lemmas come first, then one theorem per
claim (with its witness or counterexample). -/

/-- With no pagination cursor, `get_messages` returns at once: state
unchanged, no transport call. -/
theorem get_messages_of_prevBatch_none (ext : Externals) (st : RoomState)
    (conn : Bool) (resp : Except Unit Page) (h : st.prevBatch = none) :
    get_messages ext st conn resp = (st, 0) := by
  simp [get_messages, h]

/-- C1: a live sync message event that carries a transaction identifier
parsing as a Uuid — in particular one matching an entry of the
Pending-Echo Queue — is handled by `handle_room_message` as an
own-message confirmation regardless of its kind and content: the result
is exactly that of `handle_outgoing_message`, so none of the redaction,
edit or render-and-append logic runs (the transaction id check comes
first and short-circuits all other routing). -/
theorem handle_room_message_txn_short_circuits (ext : Externals)
    (st : RoomState) (ev : MessageEvent) (s : String) (u : Uuid)
    (hs : ev.txnId = some s) (hp : ext.uuidParse s = some u)
    (_hq : mqContains st.queue u = true) :
    handle_room_message ext st ev
      = handle_outgoing_message ext st u ev.eventId := by
  simp [handle_room_message, hs, hp]

/-- Witness for C1 at a concrete event whose apparent content is a
redaction but which carries the queued transaction id u1. -/
theorem handle_room_message_txn_short_circuits_witness :
    cEvTxn.txnId = some "u1" ∧ extW.uuidParse "u1" = some "u1" ∧
    mqContains stWQ.queue "u1" = true ∧
    handle_room_message extW stWQ cEvTxn
      = handle_outgoing_message extW stWQ "u1" cEvTxn.eventId :=
  ⟨rfl, rfl, by decide,
    handle_room_message_txn_short_circuits extW stWQ cEvTxn "u1" "u1" rfl rfl
      (by decide)⟩

/-- C3: `get_messages` without a cursor, or while the single-flight guard
is held by another pagination request, returns without side effects (the
state, cursor and observable lock state included, is returned unchanged
and no transport call is made); and any single call makes at most one
transport call, so across two overlapping calls at most one transport
call is made. -/
theorem get_messages_single_flight (ext : Externals) (st : RoomState)
    (conn : Bool) (resp : Except Unit Page) :
    (st.prevBatch = none → get_messages ext st conn resp = (st, 0)) ∧
    (st.inFlight = true → get_messages ext st conn resp = (st, 0)) ∧
    (get_messages ext st conn resp).2 ≤ 1 := by
  refine ⟨fun h => get_messages_of_prevBatch_none ext st conn resp h,
    fun h => ?_, ?_⟩
  · cases hpb : st.prevBatch with
    | none => exact get_messages_of_prevBatch_none ext st conn resp hpb
    | some pb => simp [get_messages, hpb, h]
  · cases hpb : st.prevBatch with
    | none => simp [get_messages, hpb]
    | some pb =>
      by_cases hf : st.inFlight
      · simp [get_messages, hpb, hf]
      · cases conn with
        | false => simp [get_messages, hpb, hf]
        | true => cases resp <;> simp [get_messages, hpb, hf]

/-- Witness for C3: a busy room and a cursorless room are both left
unchanged with no transport call made. -/
theorem get_messages_single_flight_witness :
    get_messages extW { stWB with inFlight := true } true
        (Except.ok { chunk := [], endTok := some "e" })
      = ({ stWB with inFlight := true }, 0) ∧
    get_messages extW stW true (Except.ok { chunk := [], endTok := some "e" })
      = (stW, 0) :=
  ⟨(get_messages_single_flight extW { stWB with inFlight := true } true
      (Except.ok { chunk := [], endTok := some "e" })).2.1 rfl,
   (get_messages_single_flight extW stW true
      (Except.ok { chunk := [], endTok := some "e" })).1 rfl⟩

/-- The comparison used by `sort_messages` is transitive. -/
theorem lineDateLe_trans (a b c : BufferLine) (h1 : lineDateLe a b = true)
    (h2 : lineDateLe b c = true) : lineDateLe a c = true := by
  simp [lineDateLe] at *
  omega

/-- The comparison used by `sort_messages` is total. -/
theorem lineDateLe_total (a b : BufferLine) :
    (lineDateLe a b || lineDateLe b a) = true := by
  simp [lineDateLe]
  omega

/-- The buffer produced by `sort_messages` is sorted ascending by
timestamp. -/
theorem sort_messages_sorted (buf : List BufferLine) :
    List.Pairwise (fun a b : BufferLine => a.date ≤ b.date)
      (sort_messages buf) := by
  have h := List.sorted_mergeSort lineDateLe_trans lineDateLe_total buf
  exact h.imp (fun hab => by simpa [lineDateLe] using hab)

/-- The buffer produced by `sort_messages` is a permutation of its
input. -/
theorem sort_messages_perm (buf : List BufferLine) :
    (sort_messages buf).Perm buf :=
  List.mergeSort_perm buf lineDateLe

/-- C6: when a `get_messages` call that consumed a `Forward` cursor
completes successfully, the cursor becomes `Backwards` with the same
token and the buffer is the re-sorted (ascending by timestamp) result of
appending the page's rendered events — irrespective of the page's
content (the page, its chunk and its end token are arbitrary). -/
theorem get_messages_forward_flip (ext : Externals) (st : RoomState)
    (t : String) (page : Page) (hf : st.inFlight = false)
    (hpb : st.prevBatch = some (PrevBatch.Forward t)) :
    ((get_messages ext st true (Except.ok page)).1.prevBatch
        = some (PrevBatch.Backwards t)) ∧
    ((get_messages ext st true (Except.ok page)).1.buffer
        = sort_messages (handleChunk ext st.buffer page.chunk)) ∧
    List.Pairwise (fun a b : BufferLine => a.date ≤ b.date)
      (get_messages ext st true (Except.ok page)).1.buffer := by
  have hres : get_messages ext st true (Except.ok page)
      = ({ st with
            prevBatch := some (PrevBatch.Backwards t),
            buffer := sort_messages (handleChunk ext st.buffer page.chunk),
            inFlight := false }, 1) := by
    simp [get_messages, hpb, hf]
  rw [hres]
  exact ⟨rfl, rfl, sort_messages_sorted _⟩

/-- Witness for C6 with a nonempty page carrying an end token that the
flip must ignore in favor of the forward token. -/
theorem get_messages_forward_flip_witness :
    stWF.inFlight = false ∧
    stWF.prevBatch = some (PrevBatch.Forward "tok") ∧
    ((get_messages extW stWF true
        (Except.ok { chunk := [], endTok := some "e2" })).1.prevBatch
      = some (PrevBatch.Backwards "tok")) :=
  ⟨rfl, rfl,
    (get_messages_forward_flip extW stWF "tok"
      { chunk := [], endTok := some "e2" } rfl rfl).1⟩

/-- C7: a `get_messages` call consuming a `Backwards` cursor that
receives an empty page clears the cursor (history exhausted) and leaves
the buffer, queue and lock state unchanged; every subsequent call made
while the cursor is `None` returns the state unchanged and makes no
transport call. -/
theorem get_messages_empty_backwards_exhausts (ext : Externals)
    (st : RoomState) (t : String) (page : Page) (hf : st.inFlight = false)
    (hpb : st.prevBatch = some (PrevBatch.Backwards t))
    (hempty : page.chunk = []) :
    ((get_messages ext st true (Except.ok page)).1.prevBatch = none) ∧
    ((get_messages ext st true (Except.ok page)).1.buffer = st.buffer) ∧
    ((get_messages ext st true (Except.ok page)).1.queue = st.queue) ∧
    ((get_messages ext st true (Except.ok page)).1.inFlight = false) ∧
    (∀ (conn : Bool) (resp : Except Unit Page),
        get_messages ext (get_messages ext st true (Except.ok page)).1 conn
          resp = ((get_messages ext st true (Except.ok page)).1, 0)) := by
  have hres : get_messages ext st true (Except.ok page)
      = ({ st with prevBatch := none, inFlight := false }, 1) := by
    simp [get_messages, hpb, hf, hempty, handleChunk]
  rw [hres]
  exact ⟨rfl, rfl, rfl, rfl,
    fun conn resp => get_messages_of_prevBatch_none ext _ conn resp rfl⟩

/-- Witness for C7 at a concrete state and page. -/
theorem get_messages_empty_backwards_exhausts_witness :
    stWB.inFlight = false ∧
    stWB.prevBatch = some (PrevBatch.Backwards "t1") ∧
    ((get_messages extW stWB true
        (Except.ok { chunk := [], endTok := some "e2" })).1.prevBatch
      = none) ∧
    (get_messages extW
        (get_messages extW stWB true
          (Except.ok { chunk := [], endTok := some "e2" })).1 true
        (Except.ok { chunk := [], endTok := some "e3" })
      = ((get_messages extW stWB true
          (Except.ok { chunk := [], endTok := some "e2" })).1, 0)) :=
  ⟨rfl, rfl,
    (get_messages_empty_backwards_exhausts extW stWB "t1"
      { chunk := [], endTok := some "e2" } rfl rfl rfl).1,
    (get_messages_empty_backwards_exhausts extW stWB "t1"
      { chunk := [], endTok := some "e2" } rfl rfl rfl).2.2.2.2 true
      (Except.ok { chunk := [], endTok := some "e3" })⟩

/-- C9: when the transport call of a pagination request fails, the
cursor is left untouched (the next call observes exactly the value read
at the start of the failed call), the buffer is unchanged, the guard is
released, and exactly one transport call was made — the request is safe
to retry. -/
theorem get_messages_failure_leaves_cursor (ext : Externals)
    (st : RoomState) (pb : PrevBatch) (hf : st.inFlight = false)
    (hpb : st.prevBatch = some pb) :
    ((get_messages ext st true (Except.error ())).1.prevBatch
        = st.prevBatch) ∧
    ((get_messages ext st true (Except.error ())).1.buffer = st.buffer) ∧
    ((get_messages ext st true (Except.error ())).1.inFlight = false) ∧
    ((get_messages ext st true (Except.error ())).2 = 1) := by
  have hres : get_messages ext st true (Except.error ())
      = ({ st with inFlight := false }, 1) := by
    simp [get_messages, hpb, hf]
  rw [hres]
  exact ⟨rfl, rfl, rfl, rfl⟩

/-- Witness for C9 at a concrete state. -/
theorem get_messages_failure_leaves_cursor_witness :
    stWB.inFlight = false ∧ stWB.prevBatch = some (PrevBatch.Backwards "t1") ∧
    ((get_messages extW stWB true (Except.error ())).1.prevBatch
      = stWB.prevBatch) :=
  ⟨rfl, rfl,
    (get_messages_failure_leaves_cursor extW stWB (PrevBatch.Backwards "t1")
      rfl rfl).1⟩

/-- C5: an edit whose target event id selects buffer lines whose first
line does not also carry the issuing sender's tag — including the case
where no line carries the target event-id tag at all — is rejected by
`replace_edit`: the buffer is returned unchanged, so no message, prefix,
tag or date of any line is modified and no line is appended. -/
theorem replace_edit_rejects_foreign_edit (eventId : EventId)
    (sender : UserId) (ev : RenderedEvent) (buf : List BufferLine)
    (h : (((buf.filter
              (fun l => l.tags.contains (eventIdToTag eventId))).head?).map
            (fun l => l.tags.contains (userIdToTag sender))).getD false
          = false) :
    replace_edit eventId sender ev buf = buf := by
  simp only [replace_edit, h]
  simp

/-- Witness for C5: a line tagged with the target event id but not with
the edit sender's tag is left unchanged. -/
theorem replace_edit_rejects_foreign_edit_witness :
    ((([cLineA].filter
          (fun l => l.tags.contains (eventIdToTag "E"))).head?).map
        (fun l => l.tags.contains (userIdToTag "bob"))).getD false = false ∧
    replace_edit "E" "bob" cRendered [cLineA] = [cLineA] :=
  ⟨by decide,
    replace_edit_rejects_foreign_edit "E" "bob" cRendered [cLineA] (by decide)⟩
/-- Removing every entry of a key from the queue makes lookups of that
key fail. -/
theorem mqContains_erase (q : MessageQueue) (u : Uuid) :
    mqContains (List.filter (fun e => !decide (e.1 = u)) q) u = false := by
  have hnone : (List.filter (fun e => !decide (e.1 = u)) q).find?
      (fun e => decide (e.1 = u)) = none := by
    rw [List.find?_eq_none]
    intro x hx
    have hmem := List.of_mem_filter hx
    simp at hmem
    simp [hmem]
  simp [mqContains, hnone]

/-- After `mqRemove`, the removed transaction id is no longer in the
queue. -/
theorem mqContains_mqRemove (q : MessageQueue) (u : Uuid) :
    mqContains (mqRemove q u).2 u = false := by
  unfold mqRemove
  cases hf : q.find? (fun e => decide (e.1 = u)) with
  | none => simpa [mqContains] using hf
  | some e => exact mqContains_erase q u

/-- Removing an absent transaction id leaves the queue unchanged
(`HashMap::remove` on a missing key). -/
theorem mqRemove_absent (q : MessageQueue) (u : Uuid)
    (h : mqContains q u = false) : (mqRemove q u).2 = q := by
  unfold mqRemove
  cases hf : q.find? (fun e => decide (e.1 = u)) with
  | none => rfl
  | some e => simp [mqContains, hf] at h

/-- An inserted entry is found. -/
theorem mqContains_mqInsert (q : MessageQueue) (u : Uuid) (echo : Bool)
    (c : MessageContent) : mqContains (mqInsert q u echo c) u = true := by
  simp [mqContains, mqInsert, List.find?]

/-- Confirmation for a transaction id that is not in the queue is a
no-op: the state is returned unchanged and no panic path is reachable. -/
theorem handle_outgoing_message_absent (ext : Externals) (st : RoomState)
    (u : Uuid) (eid : EventId) (h : mqContains st.queue u = false) :
    handle_outgoing_message ext st u eid = some st := by
  unfold handle_outgoing_message mqRemove
  cases hf : st.queue.find? (fun e => decide (e.1 = u)) with
  | none => simp
  | some e => simp [mqContains, hf] at h

/-- Whenever a confirmation completes (without panicking), the
transaction id is no longer in the queue — both when the entry was
present (it was removed) and when it was absent (no-op). -/
theorem handle_outgoing_message_clears (ext : Externals) (st st2 : RoomState)
    (u : Uuid) (eid : EventId)
    (h : handle_outgoing_message ext st u eid = some st2) :
    mqContains st2.queue u = false := by
  unfold handle_outgoing_message mqRemove at h
  cases hf : st.queue.find? (fun e => decide (e.1 = u)) with
  | none =>
    rw [hf] at h
    simp at h
    subst h
    simp [mqContains, hf]
  | some e =>
    rw [hf] at h
    simp at h
    cases hr : render_sync_message ext st.ownUserId
        { sender := st.ownUserId, eventId := eid, originServerTs := ext.now,
          txnId := none, kind := MessageKind.roomMessage e.2.2 } with
    | none => rw [hr] at h; simp at h
    | some rendered =>
      rw [hr] at h
      simp at h
      by_cases he : e.2.1
      · rw [if_pos he] at h
        cases hl : replace_local_echo u st.buffer rendered with
        | none => rw [hl] at h; simp at h
        | some buf =>
          rw [hl] at h
          simp at h
          rw [← h]
          exact mqContains_erase st.queue u
      · rw [if_neg he] at h
        simp at h
        rw [← h]
        exact mqContains_erase st.queue u

/-- C2: exactly one of confirmation and failure-cleanup takes effect,
exactly once per transaction id, in either arrival order.  The parts:
(1) confirmation for an id not in the queue is a no-op and never panics;
(2) initiating a send (with a connection) puts the entry in the queue;
(3) after any completed confirmation the entry is gone, so a second
confirmation is a no-op and a failure-cleanup changes nothing;
(4) after a failure-cleanup the buffer is untouched (nothing was
confirmed or rendered) and a later sync confirmation is a no-op;
(5) after `send_message` completes — whether the transport succeeded
(confirmation applied) or failed (entry dropped) — the entry is gone.
Together: whichever of the direct response and the sync confirmation is
handled first consumes the entry and applies its effect; the other is a
no-op. -/
theorem send_confirmation_exactly_once (ext : Externals) (u : Uuid)
    (eid eid2 : EventId) :
    (∀ st : RoomState, mqContains st.queue u = false →
        handle_outgoing_message ext st u eid = some st) ∧
    (∀ (st : RoomState) (content : MessageContent),
        mqContains (queue_outgoing_message ext st u content).queue u = true) ∧
    (∀ st1 st2 : RoomState, handle_outgoing_message ext st1 u eid = some st2 →
        mqContains st2.queue u = false ∧
        handle_outgoing_message ext st2 u eid2 = some st2 ∧
        { st2 with queue := (mqRemove st2.queue u).2 } = st2) ∧
    (∀ st1 : RoomState,
        ({ st1 with queue := (mqRemove st1.queue u).2 } : RoomState).buffer
            = st1.buffer ∧
        handle_outgoing_message ext
            { st1 with queue := (mqRemove st1.queue u).2 } u eid2
          = some { st1 with queue := (mqRemove st1.queue u).2 }) ∧
    (∀ (st : RoomState) (content : MessageContent) (resp : Except Unit EventId)
        (st2 : RoomState),
        send_message ext st u true resp content = some st2 →
        mqContains st2.queue u = false) := by
  refine ⟨fun st h => handle_outgoing_message_absent ext st u eid h,
    fun st content => ?_, fun st1 st2 h => ?_, fun st1 => ?_,
    fun st content resp st2 h => ?_⟩
  · unfold queue_outgoing_message
    by_cases hle : ext.localEcho
    · rw [if_pos hle]
      cases content.msgtype <;> simp [mqContains_mqInsert]
    · rw [if_neg hle]
      simp [mqContains_mqInsert]
  · have hc := handle_outgoing_message_clears ext st1 st2 u eid h
    refine ⟨hc, handle_outgoing_message_absent ext st2 u eid2 hc, ?_⟩
    rw [mqRemove_absent st2.queue u hc]
  · constructor
    · rfl
    · exact handle_outgoing_message_absent ext _ u eid2
        (mqContains_mqRemove st1.queue u)
  · unfold send_message at h
    simp at h
    cases resp with
    | ok e =>
      simp at h
      exact handle_outgoing_message_clears ext _ st2 u e h
    | error e =>
      simp at h
      rw [← h]
      exact mqContains_mqRemove _ u

/-- Witness for C2: on a concrete state the absent-id no-op and the
queue insertion evaluate as stated. -/
theorem send_confirmation_exactly_once_witness :
    mqContains stW.queue "u1" = false ∧
    handle_outgoing_message extW stW "u1" "E1" = some stW ∧
    mqContains (queue_outgoing_message extW stW "u1" cContent).queue "u1"
      = true :=
  ⟨by decide,
    (send_confirmation_exactly_once extW "u1" "E1" "E2").1 stW (by decide),
    (send_confirmation_exactly_once extW "u1" "E1" "E2").2.1 stW cContent⟩
/-- The echo rewrite loop never fails while enough rendered lines
remain: it rewrites the leading run of matching lines with the supplied
messages (in order) and leaves the rest untouched. -/
theorem echoLoop_eq (p : BufferLine → Bool) (msgs : List RenderedLine)
    (ls : List BufferLine)
    (h : (ls.takeWhile p).length ≤ msgs.length) :
    echoLoop p msgs ls
      = some (List.zipWith (fun l m => setLineMessage m.message l)
          (ls.takeWhile p) msgs ++ ls.dropWhile p) := by
  induction ls generalizing msgs with
  | nil => simp [echoLoop]
  | cons l ls ih =>
    by_cases hp : p l
    · cases msgs with
      | nil => simp [List.takeWhile_cons, hp] at h
      | cons m ms =>
        have hlen : (List.takeWhile p ls).length ≤ ms.length := by
          simp [List.takeWhile_cons, hp] at h
          omega
        unfold echoLoop
        rw [if_pos hp]
        simp [ih ms hlen, List.takeWhile_cons, List.dropWhile_cons, hp]
    · unfold echoLoop
      rw [if_neg hp]
      simp [List.takeWhile_cons, List.dropWhile_cons, hp]

/-- The leading run of matching lines is no longer than all matching
lines. -/
theorem takeWhile_length_le_filter (p : BufferLine → Bool)
    (ls : List BufferLine) :
    (ls.takeWhile p).length ≤ (ls.filter p).length := by
  induction ls with
  | nil => simp
  | cons l ls ih =>
    by_cases hp : p l
    · simpa [List.takeWhile_cons, List.filter_cons, hp] using ih
    · simp [List.takeWhile_cons, List.filter_cons, hp]

/-- Dropping a leading run of non-matching lines does not change the
number of matching lines. -/
theorem filter_dropWhile_not_length (p : BufferLine → Bool)
    (ls : List BufferLine) :
    ((ls.dropWhile (fun a => !p a)).filter p).length
      = (ls.filter p).length := by
  conv_rhs => rw [← List.takeWhile_append_dropWhile (fun a => !p a) ls]
  rw [List.filter_append]
  have hnil : (ls.takeWhile (fun a => !p a)).filter p = [] := by
    rw [List.filter_eq_nil_iff]
    intro a ha
    have := List.mem_takeWhile_imp ha
    simp at this
    simp [this]
  rw [hnil]
  simp

/-- C10: under the precondition that the buffer holds at most as many
lines tagged with the transaction id's echo tag as the rendered
confirmation has lines, `replace_local_echo` never underflows its line
index (the `none` panic path is not taken) and the visited tagged lines
— the bottom-most contiguous run, taken bottom-most first — receive the
messages of the rendered lines taken last-to-first (the zip against the
reversed rendered lines), so the bottom-most tagged line gets the last
rendered line's message; all other lines are untouched. -/
theorem replace_local_echo_no_underflow (u : Uuid) (buf : List BufferLine)
    (rendered : RenderedEvent)
    (h : (buf.filter (echoPred u)).length ≤ rendered.content.lines.length) :
    replace_local_echo u buf rendered
      = some ((buf.reverse.takeWhile (fun l => !echoPred u l)
          ++ (List.zipWith (fun l m => setLineMessage m.message l)
                ((buf.reverse.dropWhile
                    (fun l => !echoPred u l)).takeWhile (echoPred u))
                rendered.content.lines.reverse
              ++ (buf.reverse.dropWhile
                    (fun l => !echoPred u l)).dropWhile (echoPred u))).reverse) := by
  have hlen : ((buf.reverse.dropWhile
        (fun l => !echoPred u l)).takeWhile (echoPred u)).length
      ≤ rendered.content.lines.reverse.length := by
    calc ((buf.reverse.dropWhile
            (fun l => !echoPred u l)).takeWhile (echoPred u)).length
        ≤ ((buf.reverse.dropWhile
            (fun l => !echoPred u l)).filter (echoPred u)).length :=
          takeWhile_length_le_filter _ _
      _ = (buf.reverse.filter (echoPred u)).length :=
          filter_dropWhile_not_length _ _
      _ = (buf.filter (echoPred u)).length := by
          rw [List.filter_reverse, List.length_reverse]
      _ ≤ rendered.content.lines.length := h
      _ = rendered.content.lines.reverse.length := by simp
  unfold replace_local_echo
  simp only []
  cases hrest : buf.reverse.dropWhile (fun l => !echoPred u l) with
  | nil =>
    have htake : buf.reverse.takeWhile (fun l => !echoPred u l)
        = buf.reverse := by
      have hsplit := List.takeWhile_append_dropWhile
        (fun l => !echoPred u l) buf.reverse
      rw [hrest] at hsplit
      simpa using hsplit
    simp [hrest, htake]
  | cons l ls =>
    rw [hrest] at hlen
    simp only [hrest]
    rw [echoLoop_eq (echoPred u) rendered.content.lines.reverse (l :: ls) hlen]
    simp

/-- Witness for C10: one echo-tagged line, a one-line rendered
confirmation; the precondition holds and the rewrite succeeds. -/
theorem replace_local_echo_no_underflow_witness :
    (([({ date := 0, datePrinted := 0, tags := [echoTag "u1"], pfx := "",
          message := "old" } : BufferLine)].filter (echoPred "u1")).length
        ≤ cRendered.content.lines.length) ∧
    (replace_local_echo "u1"
        [{ date := 0, datePrinted := 0, tags := [echoTag "u1"], pfx := "",
           message := "old" }] cRendered).isSome = true := by
  refine ⟨by decide, ?_⟩
  rw [replace_local_echo_no_underflow "u1" _ cRendered (by decide)]
  rfl
/-- Every line touched by a redaction gains the `matrix_redacted` tag,
so it no longer matches the redaction predicate. -/
theorem redactPredicate_modifyRedactedLine (redacts : EventId)
    (f : String → String) (l : BufferLine) :
    redactPredicate redacts (modifyRedactedLine f l) = false := by
  simp [redactPredicate, modifyRedactedLine]

/-- The continuation loop of `redact_event` modifies exactly the leading
run of matching lines and leaves the rest untouched. -/
theorem redactCont_eq (p : BufferLine → Bool) (g : BufferLine → BufferLine)
    (ls : List BufferLine) :
    redactCont p g ls = (ls.takeWhile p).map g ++ ls.dropWhile p := by
  induction ls with
  | nil => simp [redactCont]
  | cons l ls ih =>
    by_cases hp : p l
    · unfold redactCont
      rw [if_pos hp]
      simp [ih, List.takeWhile_cons, List.dropWhile_cons, hp]
    · unfold redactCont
      rw [if_neg hp]
      simp [List.takeWhile_cons, List.dropWhile_cons, hp]

/-- The first line surviving `dropWhile` falsifies the dropped
predicate. -/
theorem dropWhile_head_false (q : BufferLine → Bool) (ls : List BufferLine)
    (x : BufferLine) (xs : List BufferLine) (h : ls.dropWhile q = x :: xs) :
    q x = false := by
  induction ls with
  | nil => simp at h
  | cons a as ih =>
    by_cases hq : q a
    · rw [List.dropWhile_cons, if_pos hq] at h
      exact ih h
    · rw [List.dropWhile_cons, if_neg hq] at h
      injection h with h1 h2
      subst h1
      simpa using hq

/-- Redaction is a no-op on a buffer with no line matching the
redaction predicate (no unredacted line tagged with the event id). -/
theorem redact_event_noop_of_all_clear (ext : Externals) (sender : UserId)
    (redacts : EventId) (reason : Option String) (buf2 : List BufferLine)
    (h : ∀ l ∈ buf2, redactPredicate redacts l = false) :
    redact_event ext sender redacts reason buf2 = buf2 := by
  unfold redact_event
  simp only []
  have hnil : buf2.reverse.dropWhile
      (fun x => !redactPredicate redacts x) = [] := by
    rw [List.dropWhile_eq_nil_iff]
    intro x hx
    simp [h x (by simpa using hx)]
  rw [hnil]

/-- When the unredacted lines tagged with the event id are contiguous
(`gapFree`), one redaction clears them all: afterwards no line matches
the redaction predicate. -/
theorem redact_event_all_clear (ext : Externals) (sender : UserId)
    (redacts : EventId) (reason : Option String) (buf : List BufferLine)
    (h : gapFree (redactPredicate redacts) buf = true) :
    ∀ l ∈ redact_event ext sender redacts reason buf,
      redactPredicate redacts l = false := by
  intro l hl
  unfold redact_event at hl
  simp only [] at hl
  cases hrest : buf.reverse.dropWhile
      (fun x => !redactPredicate redacts x) with
  | nil =>
    rw [hrest] at hl
    have hall : ∀ x ∈ buf.reverse, (!redactPredicate redacts x) = true := by
      rw [← List.dropWhile_eq_nil_iff]
      exact hrest
    have := hall l (by simpa using hl)
    simpa using this
  | cons x xs =>
    rw [hrest] at hl
    rw [List.mem_reverse] at hl
    rcases List.mem_append.mp hl with hskip | hrest2
    · have := List.mem_takeWhile_imp hskip
      simpa using this
    · rcases List.mem_cons.mp hrest2 with heq | hcont
      · subst heq
        exact redactPredicate_modifyRedactedLine _ _ _
      · rw [redactCont_eq] at hcont
        rcases List.mem_append.mp hcont with hmap | hdrop
        · rcases List.mem_map.mp hmap with ⟨y, _, rfl⟩
          exact redactPredicate_modifyRedactedLine _ _ _
        · -- gapFree: above the run no further line matches
          have hx : redactPredicate redacts x = true := by
            have := dropWhile_head_false
              (fun x => !redactPredicate redacts x) buf.reverse x xs hrest
            simpa using this
          have hgap : ∀ y ∈ (buf.reverse.dropWhile
              (fun a => !redactPredicate redacts a)).dropWhile
                (redactPredicate redacts),
              (!redactPredicate redacts y) = true := by
            rw [← List.all_eq_true]
            exact h
          have hmem : l ∈ (buf.reverse.dropWhile
              (fun a => !redactPredicate redacts a)).dropWhile
                (redactPredicate redacts) := by
            rw [hrest, List.dropWhile_cons, if_pos hx]
            exact hdrop
          have := hgap l hmem
          simpa using this

/-- C4 counterexample: the claim as stated is false.  On a buffer where
the two unredacted lines tagged with event id E are separated by an
untagged line, the first redaction only reaches the bottom-most tagged
line (the backward scan stops at the first non-matching line), so a
second redaction of the same event id modifies the remaining tagged line
and adds a second notice. -/
theorem redact_event_not_idempotent :
    redact_event extW "bob" "E" none
        (redact_event extW "bob" "E" none [cLineA, cLineB, cLineC])
      ≠ redact_event extW "bob" "E" none [cLineA, cLineB, cLineC] := by
  decide

/-- C4 (amended): redact_event only selects lines that carry the target
event-id tag and are not already marked `matrix_redacted`, and every
line it modifies gains the `matrix_redacted` tag; provided the
unredacted lines tagged with the target event id are contiguous in the
buffer (no non-matching line separates them, `gapFree`), a second
redaction of the same event id modifies no line and adds no second
notice, and if no unredacted line tagged with the target event id
exists, the redaction is a no-op. -/
theorem redact_event_idempotent_of_gapFree (ext : Externals)
    (sender : UserId) (redacts : EventId) (reason : Option String)
    (buf : List BufferLine)
    (h : gapFree (redactPredicate redacts) buf = true) :
    redact_event ext sender redacts reason
        (redact_event ext sender redacts reason buf)
      = redact_event ext sender redacts reason buf ∧
    ((∀ l ∈ buf, redactPredicate redacts l = false) →
      redact_event ext sender redacts reason buf = buf) :=
  ⟨redact_event_noop_of_all_clear ext sender redacts reason _
      (redact_event_all_clear ext sender redacts reason buf h),
   fun h2 => redact_event_noop_of_all_clear ext sender redacts reason buf h2⟩

/-- Witness for the amended C4 on a contiguous buffer. -/
theorem redact_event_idempotent_of_gapFree_witness :
    gapFree (redactPredicate "E") [cLineB, cLineA, cLineC] = true ∧
    redact_event extW "bob" "E" none
        (redact_event extW "bob" "E" none [cLineB, cLineA, cLineC])
      = redact_event extW "bob" "E" none [cLineB, cLineA, cLineC] :=
  ⟨by decide,
    (redact_event_idempotent_of_gapFree extW "bob" "E" none
      [cLineB, cLineA, cLineC] (by decide)).1⟩
/-- The in-place update pass neither adds nor removes lines. -/
theorem updateMatches_length (isM : BufferLine → Bool) (pfx : String)
    (news : List RenderedLine) (buf : List BufferLine) :
    (updateMatches isM pfx news buf).length = buf.length := by
  induction buf generalizing news with
  | nil => simp [updateMatches]
  | cons l ls ih =>
    by_cases hm : isM l
    · cases news with
      | nil => simp [updateMatches, hm, ih]
      | cons n ns => simp [updateMatches, hm, ih]
    · simp [updateMatches, hm, ih]

/-- Per-index behavior of the in-place update pass: the j-th matching
line is overwritten with the j-th rendered line, matching lines beyond
the rendered count are blanked, non-matching lines are untouched. -/
theorem updateMatches_getElem? (isM : BufferLine → Bool) (pfx : String)
    (news : List RenderedLine) (buf : List BufferLine) (i : Nat) :
    (updateMatches isM pfx news buf)[i]?
      = editSpecLine isM pfx news buf i := by
  induction buf generalizing news i with
  | nil => simp [updateMatches, editSpecLine]
  | cons l ls ih =>
    by_cases hm : isM l
    · cases news with
      | nil =>
        cases i with
        | zero => simp [updateMatches, editSpecLine, hm]
        | succ j =>
          simp [updateMatches, editSpecLine, hm, List.take_succ_cons,
            List.filter_cons, ih]
      | cons n ns =>
        cases i with
        | zero => simp [updateMatches, editSpecLine, hm]
        | succ j =>
          simp [updateMatches, editSpecLine, hm, List.take_succ_cons,
            List.filter_cons, ih]
    · cases i with
      | zero => simp [updateMatches, editSpecLine, hm]
      | succ j =>
        simp [updateMatches, editSpecLine, hm, List.take_succ_cons,
          List.filter_cons, ih]

/-- Printing a list of rendered lines appends the corresponding buffer
lines in order. -/
theorem foldl_print_date_tags (date : Int) (pfx : String)
    (news : List RenderedLine) (b : List BufferLine) :
    news.foldl (fun b n => print_date_tags b date n.tags (pfx ++ n.message)) b
      = b ++ news.map (fun n =>
          { date := date, datePrinted := date, tags := n.tags, pfx := "",
            message := pfx ++ n.message }) := by
  induction news generalizing b with
  | nil => simp
  | cons n ns ih =>
    rw [List.foldl_cons, ih]
    simp [print_date_tags]

/-- A matching line at index i has strictly fewer matches before it than
there are matches in total. -/
theorem filter_take_lt (isM : BufferLine → Bool) (buf : List BufferLine)
    (i : Nat) (l : BufferLine) (hget : buf[i]? = some l)
    (hm : isM l = true) :
    ((buf.take i).filter isM).length < (buf.filter isM).length := by
  induction buf generalizing i with
  | nil => simp at hget
  | cons a as ih =>
    cases i with
    | zero =>
      simp at hget
      subst hget
      simp [List.filter_cons, hm]
    | succ j =>
      simp only [List.getElem?_cons_succ] at hget
      have := ih j hget
      by_cases ha : isM a
      · simpa [List.take_succ_cons, List.filter_cons, ha] using this
      · simpa [List.take_succ_cons, List.filter_cons, ha] using this

/-- C8: `replace_event_helper` overwrites the matched lines line-for-line
with the rendered replacement.  Part 1: when the replacement renders to
at most as many lines as were matched, no line is appended (the length
is preserved) and each line follows `editSpecLine` — the j-th match is
overwritten while rendered lines remain and blanked (message set to the
empty string, the line is not removed) once they are exhausted.  Part 2:
when the counts are equal, every match index is below the rendered
count, so the blanking arm is never taken — no line is appended or
blanked.  Part 3: when the replacement renders to more lines than were
matched, the surplus rendered lines are appended as new lines carrying
the first matched line's date and the buffer is re-sorted: the result is
the stable sort of the updated buffer plus the appended lines, a
permutation of them (no line lost or duplicated), sorted ascending by
timestamp. -/
theorem replace_event_helper_line_for_line (isM : BufferLine → Bool)
    (ev : RenderedEvent) (buf : List BufferLine) :
    (ev.content.lines.length ≤ (buf.filter isM).length →
      replace_event_helper isM ev buf
          = updateMatches isM ev.pfx ev.content.lines buf ∧
      (replace_event_helper isM ev buf).length = buf.length ∧
      (∀ i : Nat, (replace_event_helper isM ev buf)[i]?
          = editSpecLine isM ev.pfx ev.content.lines buf i)) ∧
    ((buf.filter isM).length = ev.content.lines.length →
      ∀ (i : Nat) (l : BufferLine), buf[i]? = some l → isM l = true →
        ((buf.take i).filter isM).length < ev.content.lines.length) ∧
    ((buf.filter isM).length < ev.content.lines.length →
      replace_event_helper isM ev buf
          = sort_messages (updateMatches isM ev.pfx ev.content.lines buf
              ++ (ev.content.lines.drop (buf.filter isM).length).map
                  (fun n =>
                    { date := ((buf.filter isM).head?.map
                        (fun l => l.date)).getD 0,
                      datePrinted := ((buf.filter isM).head?.map
                        (fun l => l.date)).getD 0,
                      tags := n.tags, pfx := "",
                      message := ev.pfx ++ n.message })) ∧
      (replace_event_helper isM ev buf).Perm
          (updateMatches isM ev.pfx ev.content.lines buf
            ++ (ev.content.lines.drop (buf.filter isM).length).map
                (fun n =>
                  { date := ((buf.filter isM).head?.map
                      (fun l => l.date)).getD 0,
                    datePrinted := ((buf.filter isM).head?.map
                      (fun l => l.date)).getD 0,
                    tags := n.tags, pfx := "",
                    message := ev.pfx ++ n.message })) ∧
      List.Pairwise (fun a b : BufferLine => a.date ≤ b.date)
        (replace_event_helper isM ev buf)) := by
  have heq : ∀ _ : ¬ (buf.filter isM).length < ev.content.lines.length,
      replace_event_helper isM ev buf
        = updateMatches isM ev.pfx ev.content.lines buf := by
    intro h
    unfold replace_event_helper
    simp only []
    rw [if_neg h]
  have hmore : (buf.filter isM).length < ev.content.lines.length →
      replace_event_helper isM ev buf
        = sort_messages (updateMatches isM ev.pfx ev.content.lines buf
            ++ (ev.content.lines.drop (buf.filter isM).length).map
                (fun n =>
                  { date := ((buf.filter isM).head?.map
                      (fun l => l.date)).getD 0,
                    datePrinted := ((buf.filter isM).head?.map
                      (fun l => l.date)).getD 0,
                    tags := n.tags, pfx := "",
                    message := ev.pfx ++ n.message })) := by
    intro h
    unfold replace_event_helper
    simp only []
    rw [if_pos h, foldl_print_date_tags]
  refine ⟨fun h => ?_, fun h i l hget hm => ?_, fun h => ?_⟩
  · have hne := heq (by omega)
    exact ⟨hne, by rw [hne]; exact updateMatches_length isM ev.pfx _ buf,
      fun i => by rw [hne]; exact updateMatches_getElem? isM ev.pfx _ buf i⟩
  · have := filter_take_lt isM buf i l hget hm
    omega
  · have hm2 := hmore h
    exact ⟨hm2, by rw [hm2]; exact sort_messages_perm _,
      by rw [hm2]; exact sort_messages_sorted _⟩

/-- Witness for C8 in the equal-counts case on a concrete buffer. -/
theorem replace_event_helper_line_for_line_witness :
    (cRendered.content.lines.length
      ≤ ([cLineA].filter (fun l => l.tags.contains "matrix_id_E")).length) ∧
    replace_event_helper (fun l => l.tags.contains "matrix_id_E") cRendered
        [cLineA]
      = updateMatches (fun l => l.tags.contains "matrix_id_E") cRendered.pfx
          cRendered.content.lines [cLineA] :=
  ⟨by decide,
    ((replace_event_helper_line_for_line
        (fun l => l.tags.contains "matrix_id_E") cRendered [cLineA]).1
      (by decide)).1⟩
